import Mathlib

/-!
Verification of the text-addressing core of `ExtHostDocumentData`
(`src/vs/workbench/api/node/extHostDocumentData.ts`): position/range
validation and clamping, offset/position conversion, range text
extraction, the per-line descriptor cache, and word-pattern selection.

Strings are modelled as lists of characters (`Line := List Char`);
JavaScript numbers appearing as line/character coordinates are modelled
as `Int` (inputs may be negative).  The document is a snapshot of the
line store: the ordered line sequence plus the single shared terminator
string.
-/

namespace ExtHostDocumentData

/-- A line of text, as a sequence of characters (JS string, by code unit). -/
abbrev Line := List Char

/-- `Position` from `extHostTypes`: an immutable (line, character) pair.
Coordinates are integers; nothing forces them in-bounds. -/
structure Position where
  line : Int
  character : Int
  deriving DecidableEq, Repr

/-- `Range` from `extHostTypes`: a pair of positions.  The source's field
`end` is a Lean keyword, so it is named `stop` here. -/
structure Range where
  start : Position
  stop : Position
  deriving DecidableEq, Repr

/-- `Range.isEmpty`: start equals end. -/
def Range.isEmpty (r : Range) : Bool := r.start = r.stop

/-- `Range.isSingleLine`: start and end share a line. -/
def Range.isSingleLine (r : Range) : Bool := r.start.line = r.stop.line

/-- Lexicographic (line, then character) order on positions, the order
`Range` normally maintains between `start` and `end`. -/
def Position.isBefore (a b : Position) : Prop :=
  a.line < b.line ∨ (a.line = b.line ∧ a.character < b.character)

instance (a b : Position) : Decidable (a.isBefore b) := by
  unfold Position.isBefore; infer_instance

/-- The document snapshot: the ordered sequence of line strings
(`this._lines`) and the shared end-of-line string (`this._eol`). -/
structure Doc where
  lines : List Line
  eol : Line
  deriving Repr

/-- `this._lines.length`. -/
def Doc.lineCount (d : Doc) : Int := d.lines.length

/-- `this._lines[i]`.  JavaScript indexing out of bounds yields
`undefined`; every use below is guarded so the default is never read
on a document with at least one line. -/
def Doc.getLine (d : Doc) (i : Int) : Line := d.lines.getD i.toNat []

/-- The body of `validatePosition`, returning the clamped coordinates
together with the source's `hasChanged` flag.  When the flag is `false`
the source returns the incoming `position` object itself. -/
def validatePositionEx (d : Doc) (p : Position) : Position × Bool :=
  if p.line < 0 then
    (⟨0, 0⟩, true)
  else if p.line ≥ d.lineCount then
    (⟨d.lineCount - 1, ((d.getLine (d.lineCount - 1)).length : Int)⟩, true)
  else if p.character < 0 then
    (⟨p.line, 0⟩, true)
  else if p.character > ((d.getLine p.line).length : Int) then
    (⟨p.line, ((d.getLine p.line).length : Int)⟩, true)
  else
    (⟨p.line, p.character⟩, false)

/-- `validatePosition`: clamp, but hand back the original position when
nothing changed. -/
def validatePosition (d : Doc) (p : Position) : Position :=
  let v := validatePositionEx d p
  if v.2 then v.1 else p

/-- `validateRange`: validate both endpoints independently; if neither
changed (the source compares by reference, equivalent to the two
`hasChanged` flags being false) return the original range, else build a
new range from the validated endpoints. -/
def validateRange (d : Doc) (r : Range) : Range :=
  if (validatePositionEx d r.start).2 = false ∧
      (validatePositionEx d r.stop).2 = false then r
  else
    ⟨⟨(validatePositionEx d r.start).1.line,
      (validatePositionEx d r.start).1.character⟩,
     ⟨(validatePositionEx d r.stop).1.line,
      (validatePositionEx d r.stop).1.character⟩⟩

/-! ## Offset converter

`offsetAt` uses `MirrorModel2._lineStarts`, a prefix-sum index over the
line lengths plus the terminator width.  The index itself lives outside
this file's source; `lineStartSum` and `getIndexOf` model
`getAccumulatedValue` and `getIndexOf` of that index from the spec
(§4.2/§6): accumulated lengths are sums of `length + eol.length`, and
locating an offset walks lines front to back, the final line absorbing
any remainder. -/

/-- Modelled from the spec: `getAccumulatedValue(i - 1)` of the
prefix-sum index, i.e. the flat offset at which line `i` starts: the
total length of the lines strictly before `i`, each counted with the
terminator width. -/
def lineStartSum (lens : List Nat) (e : Nat) (i : Nat) : Nat :=
  ((lens.take i).map (· + e)).sum

/-- Modelled from the spec: `getIndexOf(offset)` of the prefix-sum
index, returning `(lineIndex, remainder)`.  The remainder may exceed
the line's length when the offset falls inside the terminator, and
offsets at or past the end of the document land on the last line. -/
def getIndexOf : List Nat → Nat → Nat → Nat × Nat
  | [], _, offset => (0, offset)
  | [_], _, offset => (0, offset)
  | l :: l2 :: rest, e, offset =>
    if offset < l + e then (0, offset)
    else
      let p := getIndexOf (l2 :: rest) e (offset - (l + e))
      (p.1 + 1, p.2)

/-- `offsetAt`: validate the position, then
`getAccumulatedValue(line - 1) + character`. -/
def offsetAt (d : Doc) (p : Position) : Int :=
  let v := validatePosition d p
  (lineStartSum (d.lines.map List.length) d.eol.length v.line.toNat : Int)
    + v.character

/-- `positionAt`: floor and clamp the offset to `[0, ∞)`, locate it in
the prefix-sum index, then clamp the remainder to the located line's
length so terminator-region offsets collapse to end-of-line. -/
def positionAt (d : Doc) (offset : Int) : Position :=
  let o : Nat := (max 0 offset).toNat
  let out := getIndexOf (d.lines.map List.length) d.eol.length o
  let lineLength := (d.lines.getD out.1 []).length
  ⟨(out.1 : Int), (min out.2 lineLength : Int)⟩

/-! ## Range text extraction -/

/-- JavaScript `String.prototype.substring(a, b)`: both indices are
clamped into `[0, length]` and swapped if out of order. -/
def jsSubstring (s : Line) (a b : Int) : Line :=
  let n : Int := s.length
  let a' := (min (max a 0) n).toNat
  let b' := (min (max b 0) n).toNat
  ((s.drop (min a' b')).take (max a' b' - min a' b'))

/-- `_getTextInRange`: validate, then return nothing for an empty
range, a single-line substring, or the start-line tail, the full lines
strictly between, and the end-line prefix joined with the document's
shared terminator. -/
def getTextInRange (d : Doc) (r0 : Range) : Line :=
  let r := validateRange d r0
  if r.isEmpty then []
  else if r.isSingleLine then
    jsSubstring (d.getLine r.start.line) r.start.character r.stop.character
  else
    let startLineIndex := r.start.line.toNat
    let endLineIndex := r.stop.line.toNat
    let first :=
      jsSubstring (d.getLine r.start.line) r.start.character
        ((d.getLine r.start.line).length : Int)
    let middles :=
      (List.range' (startLineIndex + 1) (endLineIndex - (startLineIndex + 1))).map
        (fun i => d.lines.getD i [])
    let last := jsSubstring (d.getLine r.stop.line) 0 r.stop.character
    List.intercalate d.eol ([first] ++ middles ++ [last])

/-! ## Line descriptor cache -/

/-- JavaScript `\s`: the characters the leading-whitespace regex in
`lineAt` counts. -/
def isJsSpace (c : Char) : Bool :=
  c = ' ' || c = '\t' || c = '\n' || c = '\r' || c = '\x0b' || c = '\x0c' ||
  c = '\u00A0' || c = '\u1680' ||
  ('\u2000' ≤ c && c ≤ '\u200A') ||
  c = '\u2028' || c = '\u2029' || c = '\u202F' || c = '\u205F' ||
  c = '\u3000' || c = '\uFEFF'

/-- The frozen per-line descriptor `lineAt` builds and caches. -/
structure TextLine where
  lineNumber : Int
  text : Line
  range : Range
  rangeIncludingLineBreak : Range
  firstNonWhitespaceCharacterIndex : Nat
  isEmptyOrWhitespace : Bool
  deriving DecidableEq, Repr

/-- The descriptor freshly computed by `lineAt` for line `line`:
leading-whitespace length via the anchored `\s*` match, the line-local
range, the line-break-including range (equal to `range` on the last
line), and the whitespace-only flag. -/
def computeTextLine (d : Doc) (line : Int) : TextLine :=
  let text := d.getLine line
  let firstNonWhitespaceCharacterIndex := (text.takeWhile isJsSpace).length
  let range : Range := ⟨⟨line, 0⟩, ⟨line, (text.length : Int)⟩⟩
  let rangeIncludingLineBreak : Range :=
    if line < d.lineCount - 1 then ⟨⟨line, 0⟩, ⟨line + 1, 0⟩⟩ else range
  { lineNumber := line
    text := text
    range := range
    rangeIncludingLineBreak := rangeIncludingLineBreak
    firstNonWhitespaceCharacterIndex := firstNonWhitespaceCharacterIndex
    isEmptyOrWhitespace := firstNonWhitespaceCharacterIndex = text.length }

/-- The sparse `this._textLines` array: line index to cached descriptor. -/
abbrev Cache := Nat → Option TextLine

/-- `lineAt`'s polymorphic argument: a raw line number or a `Position`. -/
inductive LineOrPos where
  | num (n : Int)
  | pos (p : Position)

/-- The line index `lineAt` resolves its argument to. -/
def resolveLine : LineOrPos → Int
  | .num n => n
  | .pos p => p.line

/-- `lineAt`: throw on an out-of-bounds index; otherwise reuse the
cached descriptor when its `lineNumber` and `text` both still match,
and recompute and store back on any mismatch or an empty slot.  The
updated cache is returned alongside the descriptor. -/
def lineAt (d : Doc) (cache : Cache) (lop : LineOrPos) :
    Except String (TextLine × Cache) :=
  if resolveLine lop < 0 ∨ resolveLine lop ≥ d.lineCount then
    .error "Illegal value for line"
  else
    match cache (resolveLine lop).toNat with
    | some result =>
      if result.lineNumber = resolveLine lop ∧
          result.text = d.getLine (resolveLine lop) then
        .ok (result, cache)
      else
        .ok (computeTextLine d (resolveLine lop),
          fun j => if j = (resolveLine lop).toNat then
            some (computeTextLine d (resolveLine lop)) else cache j)
    | none =>
      .ok (computeTextLine d (resolveLine lop),
        fun j => if j = (resolveLine lop).toNat then
          some (computeTextLine d (resolveLine lop)) else cache j)

/-! ## Word-pattern selection

`getWordRangeAtPosition` first picks the regex to scan with.  The
catastrophic-backtracking judgment `regExpLeadsToEndlessLoop` and the
per-language registry live outside this file's source, so they are
abstracted into an environment. -/

/-- A regular expression value, identified by its source text. -/
structure RegExp where
  source : String
  deriving DecidableEq, Repr

/-- Modelled from the spec: the collaborators of the word locator that
are external to the source file — the static heuristic
`regExpLeadsToEndlessLoop` judging a pattern likely to backtrack
endlessly, and the per-language word-pattern registry
`getWordDefinitionFor` (absent registration yields no pattern). -/
structure WordEnv where
  leadsToEndlessLoop : RegExp → Bool
  wordDefinitionFor : String → Option RegExp

/-- The regex-selection step of `getWordRangeAtPosition`: when no regex
was supplied, or the supplied one is judged to loop endlessly, the
per-language registered pattern replaces it. -/
def selectWordPattern (env : WordEnv) (languageId : String)
    (regexp : Option RegExp) : Option RegExp :=
  match regexp with
  | none => env.wordDefinitionFor languageId
  | some r =>
    if env.leadsToEndlessLoop r then env.wordDefinitionFor languageId
    else some r

/-! ## Derived predicates and spec-side description -/

/-- A position the validator leaves untouched: its line is a real line
index and its character is within `[0, length(line)]`.  This is exactly
the condition under which `validatePosition` sets no `hasChanged`
flag. -/
def PosUnchanged (d : Doc) (p : Position) : Prop :=
  0 ≤ p.line ∧ p.line < d.lineCount ∧
  0 ≤ p.character ∧ p.character ≤ ((d.getLine p.line).length : Int)

instance (d : Doc) (p : Position) : Decidable (PosUnchanged d p) := by
  unfold PosUnchanged; infer_instance

/-- The spec's description of `getTextInRange` (§4.3), written with
plain prefix/suffix operations on the validated range: nothing for an
empty range; for a single line the characters between the two offsets;
otherwise the tail of the start line, the full lines strictly between,
and the prefix of the end line, joined with the shared terminator. -/
def getTextInRangeSpec (d : Doc) (r0 : Range) : Line :=
  let r := validateRange d r0
  if r.start = r.stop then []
  else if r.start.line = r.stop.line then
    let lo := min r.start.character r.stop.character
    let hi := max r.start.character r.stop.character
    ((d.getLine r.start.line).drop lo.toNat).take (hi.toNat - lo.toNat)
  else
    let first := (d.getLine r.start.line).drop r.start.character.toNat
    let middles :=
      (List.range' (r.start.line.toNat + 1)
        (r.stop.line.toNat - (r.start.line.toNat + 1))).map
        (fun i => d.lines.getD i [])
    let last := (d.getLine r.stop.line).take r.stop.character.toNat
    List.intercalate d.eol ([first] ++ middles ++ [last])

/-! ## Concrete documents used by the witnesses -/

/-- The two-line document `["  foo", "bar"]` with terminator `"\n"`. -/
def docA : Doc :=
  ⟨[[' ', ' ', 'f', 'o', 'o'], ['b', 'a', 'r']], ['\n']⟩

/-- An empty line cache. -/
def emptyCache : Cache := fun _ => none

/-! ## Basic lemmas about the validator -/

/-- The `hasChanged` flag is clear exactly on already-valid positions. -/
theorem validatePositionEx_snd_false_iff (d : Doc) (p : Position) :
    (validatePositionEx d p).2 = false ↔ PosUnchanged d p := by
  unfold validatePositionEx PosUnchanged
  split_ifs with h1 h2 h3 h4 <;> simp <;> omega

/-- With the flag clear, the computed coordinates are the input's. -/
theorem validatePositionEx_fst_of_false (d : Doc) (p : Position)
    (h : (validatePositionEx d p).2 = false) :
    (validatePositionEx d p).1 = p := by
  unfold validatePositionEx at *
  split_ifs at h ⊢
  simp_all

/-- `validatePosition` agrees with the first component of the clamping
body on all inputs. -/
theorem validatePosition_eq_fst (d : Doc) (p : Position) :
    validatePosition d p = (validatePositionEx d p).1 := by
  unfold validatePosition
  cases h : (validatePositionEx d p).2 with
  | false => simp [h, validatePositionEx_fst_of_false d p h]
  | true => simp [h]

/-- On a document with at least one line, the clamping body always
produces an already-valid position. -/
theorem validatePositionEx_fst_unchanged (d : Doc) (p : Position)
    (h : d.lines ≠ []) :
    PosUnchanged d (validatePositionEx d p).1 := by
  have hlen : 0 < d.lines.length := List.length_pos.mpr h
  unfold validatePositionEx PosUnchanged Doc.lineCount at *
  split_ifs with h1 h2 h3 h4 <;> simp <;> omega

/-! ## Claims C1, C9, C10: clamping behaviour of `validatePosition` -/

/-- C1.  On a document with at least one line, `validatePosition` maps
a negative line to `(0, 0)`, a line at or past `lineCount` to
`(lineCount - 1, length(lastLine))`, and otherwise keeps the line and
clamps the character into `[0, length(lines[p.line])]`. -/
theorem validatePosition_clamps (d : Doc) (p : Position) (_h : d.lines ≠ []) :
    validatePosition d p =
      if p.line < 0 then ⟨0, 0⟩
      else if p.line ≥ d.lineCount then
        ⟨d.lineCount - 1, ((d.getLine (d.lineCount - 1)).length : Int)⟩
      else ⟨p.line, max 0 (min p.character ((d.getLine p.line).length : Int))⟩ := by
  rw [validatePosition_eq_fst]
  unfold validatePositionEx
  split_ifs with h1 h2 h3 h4 <;> simp_all <;> omega

/-- C1 witness: the spec's own examples on the concrete two-line
document — `validatePosition((-1, 5)) = (0, 0)` and
`validatePosition((10, 0)) = (1, length(lines[1]))`. -/
theorem validatePosition_clamps_witness :
    docA.lines ≠ [] ∧
      validatePosition docA ⟨-1, 5⟩ =
        (if (-1 : Int) < 0 then (⟨0, 0⟩ : Position)
         else if (-1 : Int) ≥ docA.lineCount then
           ⟨docA.lineCount - 1, ((docA.getLine (docA.lineCount - 1)).length : Int)⟩
         else ⟨-1, max 0 (min 5 ((docA.getLine (-1)).length : Int))⟩) :=
  ⟨by simp [docA], validatePosition_clamps docA ⟨-1, 5⟩ (by simp [docA])⟩

/-- C10.  On a document with at least one line, every validated
position is in bounds: `0 ≤ line < lineCount` and
`0 ≤ character ≤ length(lines[line])`; in particular the line index,
as used for array access, stays inside the line sequence. -/
theorem validatePosition_inBounds (d : Doc) (p : Position) (h : d.lines ≠ []) :
    0 ≤ (validatePosition d p).line ∧
    (validatePosition d p).line < d.lineCount ∧
    0 ≤ (validatePosition d p).character ∧
    (validatePosition d p).character ≤
      ((d.getLine (validatePosition d p).line).length : Int) ∧
    (validatePosition d p).line.toNat < d.lines.length := by
  rw [validatePosition_eq_fst]
  have hb := validatePositionEx_fst_unchanged d p h
  unfold PosUnchanged Doc.lineCount at hb
  refine ⟨hb.1, hb.2.1, hb.2.2.1, hb.2.2.2, ?_⟩
  omega

/-- C10 witness: a wildly out-of-bounds position on the concrete
document validates to an in-bounds one. -/
theorem validatePosition_inBounds_witness :
    docA.lines ≠ [] ∧
      (0 ≤ (validatePosition docA ⟨-3, 7⟩).line ∧
       (validatePosition docA ⟨-3, 7⟩).line < docA.lineCount ∧
       0 ≤ (validatePosition docA ⟨-3, 7⟩).character ∧
       (validatePosition docA ⟨-3, 7⟩).character ≤
         ((docA.getLine (validatePosition docA ⟨-3, 7⟩).line).length : Int) ∧
       (validatePosition docA ⟨-3, 7⟩).line.toNat < docA.lines.length) :=
  ⟨by simp [docA], validatePosition_inBounds docA ⟨-3, 7⟩ (by simp [docA])⟩

/-- An already-valid position passes through `validatePosition`. -/
theorem validatePosition_of_unchanged (d : Doc) (q : Position)
    (h : PosUnchanged d q) : validatePosition d q = q := by
  have hflag := (validatePositionEx_snd_false_iff d q).mpr h
  unfold validatePosition
  simp [hflag]

/-- C9.  On a document with at least one line, `validatePosition` is
idempotent. -/
theorem validatePosition_idempotent (d : Doc) (p : Position)
    (h : d.lines ≠ []) :
    validatePosition d (validatePosition d p) = validatePosition d p := by
  refine validatePosition_of_unchanged d _ ?_
  rw [validatePosition_eq_fst]
  exact validatePositionEx_fst_unchanged d p h

/-- C9 witness: idempotence at a concrete out-of-bounds position on
the concrete document. -/
theorem validatePosition_idempotent_witness :
    docA.lines ≠ [] ∧
      validatePosition docA (validatePosition docA ⟨100, -5⟩) =
        validatePosition docA ⟨100, -5⟩ :=
  ⟨by simp [docA], validatePosition_idempotent docA ⟨100, -5⟩ (by simp [docA])⟩

/-! ## Claims C5, C6: identity preservation and missing reordering in
`validateRange` -/

/-- The start of a validated range is the validated start. -/
theorem validateRange_start (d : Doc) (r : Range) :
    (validateRange d r).start = validatePosition d r.start := by
  unfold validateRange
  split_ifs with hc
  · unfold validatePosition
    simp [hc.1]
  · rw [validatePosition_eq_fst]

/-- The end of a validated range is the validated end. -/
theorem validateRange_stop (d : Doc) (r : Range) :
    (validateRange d r).stop = validatePosition d r.stop := by
  unfold validateRange
  split_ifs with hc
  · unfold validatePosition
    simp [hc.2]
  · rw [validatePosition_eq_fst]

/-- A range both of whose endpoints are already valid passes through
`validateRange` unchanged. -/
theorem validateRange_of_unchanged (d : Doc) (r : Range)
    (hs : PosUnchanged d r.start) (he : PosUnchanged d r.stop) :
    validateRange d r = r := by
  unfold validateRange
  simp [(validatePositionEx_snd_false_iff d r.start).mpr hs,
    (validatePositionEx_snd_false_iff d r.stop).mpr he]

/-- C5.  Validation is identity-preserving: an already-valid position
comes back as the very position that went in, a range whose two
endpoints both survive validation unchanged comes back as the very
range that went in, and any other range is rebuilt from the two
validated endpoints. -/
theorem validate_identity_preserving (d : Doc) (p : Position) (r r' : Range)
    (hp : PosUnchanged d p)
    (hs : PosUnchanged d r.start) (he : PosUnchanged d r.stop)
    (hr' : ¬(PosUnchanged d r'.start ∧ PosUnchanged d r'.stop)) :
    validatePosition d p = p ∧ validateRange d r = r ∧
      validateRange d r' =
        ⟨validatePosition d r'.start, validatePosition d r'.stop⟩ := by
  refine ⟨validatePosition_of_unchanged d p hp,
    validateRange_of_unchanged d r hs he, ?_⟩
  unfold validateRange
  split_ifs with hc
  · exact absurd ⟨(validatePositionEx_snd_false_iff d r'.start).mp hc.1,
      (validatePositionEx_snd_false_iff d r'.stop).mp hc.2⟩ hr'
  · rw [validatePosition_eq_fst, validatePosition_eq_fst]

/-- C5 witness: a valid position and range pass through unchanged on
the concrete document, and a range with a negative start line is
rebuilt from its validated endpoints. -/
theorem validate_identity_preserving_witness :
    PosUnchanged docA ⟨0, 1⟩ ∧
    PosUnchanged docA (⟨⟨0, 1⟩, ⟨1, 2⟩⟩ : Range).start ∧
    PosUnchanged docA (⟨⟨0, 1⟩, ⟨1, 2⟩⟩ : Range).stop ∧
    ¬(PosUnchanged docA (⟨⟨-1, 0⟩, ⟨0, 0⟩⟩ : Range).start ∧
      PosUnchanged docA (⟨⟨-1, 0⟩, ⟨0, 0⟩⟩ : Range).stop) ∧
    (validatePosition docA ⟨0, 1⟩ = ⟨0, 1⟩ ∧
     validateRange docA ⟨⟨0, 1⟩, ⟨1, 2⟩⟩ = ⟨⟨0, 1⟩, ⟨1, 2⟩⟩ ∧
     validateRange docA ⟨⟨-1, 0⟩, ⟨0, 0⟩⟩ =
       ⟨validatePosition docA ⟨-1, 0⟩, validatePosition docA ⟨0, 0⟩⟩) :=
  ⟨by decide, by decide, by decide, by decide,
    validate_identity_preserving docA ⟨0, 1⟩ ⟨⟨0, 1⟩, ⟨1, 2⟩⟩
      ⟨⟨-1, 0⟩, ⟨0, 0⟩⟩ (by decide) (by decide) (by decide) (by decide)⟩

/-- C6.  `validateRange` never reorders: a range whose start comes
lexicographically after its end, but whose endpoints both survive
validation unchanged, is returned exactly as given. -/
theorem validateRange_no_reorder (d : Doc) (r : Range)
    (_hlt : r.stop.isBefore r.start)
    (hs : PosUnchanged d r.start) (he : PosUnchanged d r.stop) :
    validateRange d r = r :=
  validateRange_of_unchanged d r hs he

/-- C6 witness: the out-of-order range `((1,2),(0,0))` on the concrete
document survives validation exactly as given. -/
theorem validateRange_no_reorder_witness :
    (⟨⟨1, 2⟩, ⟨0, 0⟩⟩ : Range).stop.isBefore (⟨⟨1, 2⟩, ⟨0, 0⟩⟩ : Range).start ∧
    PosUnchanged docA (⟨⟨1, 2⟩, ⟨0, 0⟩⟩ : Range).start ∧
    PosUnchanged docA (⟨⟨1, 2⟩, ⟨0, 0⟩⟩ : Range).stop ∧
    validateRange docA ⟨⟨1, 2⟩, ⟨0, 0⟩⟩ = ⟨⟨1, 2⟩, ⟨0, 0⟩⟩ :=
  ⟨by decide, by decide, by decide,
    validateRange_no_reorder docA ⟨⟨1, 2⟩, ⟨0, 0⟩⟩ (by decide) (by decide)
      (by decide)⟩

/-! ## Claims C7, C3: `lineAt` error behaviour and cache invariant -/

/-- C7.  `lineAt` fails exactly when the resolved line index — the
argument itself, or the `.line` of a position argument — is negative
or at least `lineCount`; in bounds it always succeeds. -/
theorem lineAt_error_iff (d : Doc) (cache : Cache) (lop : LineOrPos) :
    (∃ e, lineAt d cache lop = .error e) ↔
      (resolveLine lop < 0 ∨ resolveLine lop ≥ d.lineCount) := by
  unfold lineAt
  split_ifs with hb
  · simp [hb]
  · simp only [hb, iff_false]
    rintro ⟨e, he⟩
    revert he
    cases cache (resolveLine lop).toNat
    · simp
    · simp only []
      split_ifs <;> simp

/-- C3.  The cache slot for a valid line index is reused exactly when
its descriptor's stored `lineNumber` is that index and its stored
`text` is the line's current content — then `lineAt` returns it with
the cache untouched; on any mismatch, or an empty slot, `lineAt`
recomputes the descriptor from the current line text and stores it
back in the slot. -/
theorem lineAt_cache_invariant (d : Doc) (cache : Cache) (i : Int)
    (h0 : 0 ≤ i) (h1 : i < d.lineCount) :
    (∀ c, cache i.toNat = some c → c.lineNumber = i → c.text = d.getLine i →
       lineAt d cache (.num i) = .ok (c, cache)) ∧
    ((∀ c, cache i.toNat = some c → ¬(c.lineNumber = i ∧ c.text = d.getLine i)) →
       lineAt d cache (.num i) = .ok (computeTextLine d i,
         fun j => if j = i.toNat then some (computeTextLine d i) else cache j)) := by
  have hb : ¬((i : Int) < 0 ∨ (i : Int) ≥ d.lineCount) := by
    push_neg
    exact ⟨h0, h1⟩
  constructor
  · intro c hc hn ht
    unfold lineAt
    simp only [resolveLine, hb, if_false, hc]
    simp [hn, ht]
  · intro hmiss
    unfold lineAt
    simp only [resolveLine, hb, if_false]
    cases hc : cache i.toNat with
    | none => rfl
    | some c =>
      have := hmiss c hc
      simp [this]

/-- C3 witness: on the concrete document, an empty slot is filled with
the freshly computed descriptor for line 0. -/
theorem lineAt_cache_invariant_witness :
    (0 : Int) ≤ 0 ∧ (0 : Int) < docA.lineCount ∧
      lineAt docA emptyCache (.num 0) = .ok (computeTextLine docA 0,
        fun j => if j = 0 then some (computeTextLine docA 0) else emptyCache j) :=
  ⟨by decide, by decide,
    (lineAt_cache_invariant docA emptyCache 0 (by decide) (by decide)).2
      (by intro c hc; simp [emptyCache] at hc)⟩

/-! ## Claim C8: word-pattern substitution -/

/-- C8.  Whenever no regex is supplied, or the supplied regex is
judged likely to backtrack endlessly, the scan never uses it: the
pattern registered for the document's language is selected instead. -/
theorem selectWordPattern_substitutes (env : WordEnv) (languageId : String)
    (regexp : Option RegExp)
    (h : regexp = none ∨
      ∃ r, regexp = some r ∧ env.leadsToEndlessLoop r = true) :
    selectWordPattern env languageId regexp =
      env.wordDefinitionFor languageId := by
  unfold selectWordPattern
  rcases h with h | ⟨r, hr, hloop⟩
  · simp [h]
  · simp [hr, hloop]

/-- C8 witness: under a heuristic that flags the nested-quantifier
pattern, the supplied pattern is replaced by the registered one. -/
theorem selectWordPattern_substitutes_witness :
    ((some (⟨"(a+)+b"⟩ : RegExp) = none ∨
      ∃ r, some (⟨"(a+)+b"⟩ : RegExp) = some r ∧
        (WordEnv.mk (fun re => re.source = "(a+)+b") (fun _ => some ⟨"\\w+"⟩)).leadsToEndlessLoop r = true) ∧
     selectWordPattern
       (WordEnv.mk (fun re => re.source = "(a+)+b") (fun _ => some ⟨"\\w+"⟩))
       "plaintext" (some ⟨"(a+)+b"⟩) =
       (WordEnv.mk (fun re => re.source = "(a+)+b")
         (fun _ => some ⟨"\\w+"⟩)).wordDefinitionFor "plaintext") :=
  ⟨Or.inr ⟨⟨"(a+)+b"⟩, rfl, by decide⟩,
    selectWordPattern_substitutes
      (WordEnv.mk (fun re => re.source = "(a+)+b") (fun _ => some ⟨"\\w+"⟩))
      "plaintext" (some ⟨"(a+)+b"⟩)
      (Or.inr ⟨⟨"(a+)+b"⟩, rfl, by decide⟩)⟩

/-! ## Claim C2: offset/position round trip -/

theorem lineStartSum_zero (lens : List Nat) (e : Nat) :
    lineStartSum lens e 0 = 0 := by simp [lineStartSum]

theorem lineStartSum_cons_succ (l : Nat) (ls : List Nat) (e j : Nat) :
    lineStartSum (l :: ls) e (j + 1) = l + e + lineStartSum ls e j := by
  simp [lineStartSum, List.take_succ_cons]

/-- Locating the offset `lineStart(i) + c` lands on line `i` with
remainder `c`, provided `c` stays short of the next line's start. -/
theorem getIndexOf_locate (lens : List Nat) (e i c : Nat)
    (hi : i < lens.length) (hc : c < lens.getD i 0 + e) :
    getIndexOf lens e (lineStartSum lens e i + c) = (i, c) := by
  induction lens generalizing i with
  | nil => simp at hi
  | cons l ls ih =>
    cases ls with
    | nil =>
      have : i = 0 := by simp at hi; omega
      subst this
      simp [getIndexOf, lineStartSum_zero]
    | cons l2 rest =>
      cases i with
      | zero =>
        have hcl : c < l + e := by simpa using hc
        simp [getIndexOf, lineStartSum_zero, hcl]
      | succ j =>
        rw [lineStartSum_cons_succ]
        have hj : j < (l2 :: rest).length := by simpa using hi
        have hcj : c < (l2 :: rest).getD j 0 + e := by simpa using hc
        have hge : ¬(l + e + lineStartSum (l2 :: rest) e j + c < l + e) := by
          omega
        simp only [getIndexOf, hge, if_false]
        have harg : l + e + lineStartSum (l2 :: rest) e j + c - (l + e) =
            lineStartSum (l2 :: rest) e j + c := by omega
        rw [harg, ih j hj hcj]

/-- The length table read at an in-bounds index is that line's length. -/
theorem map_length_getD (lines : List Line) (i : Nat) (hi : i < lines.length) :
    (lines.map List.length).getD i 0 = (lines.getD i []).length := by
  simp [List.getD, List.getElem?_eq_getElem, hi, List.getElem?_map]

/-- C2.  On a document whose terminator is non-empty, `positionAt`
inverts `offsetAt` on every valid position: a position whose line is a
real line index and whose character is within `[0, length(line)]`. -/
theorem positionAt_offsetAt (d : Doc) (p : Position) (he : d.eol ≠ [])
    (hp : PosUnchanged d p) :
    positionAt d (offsetAt d p) = p := by
  obtain ⟨h0, h1, h2, h3⟩ := hp
  have hvp : validatePosition d p = p :=
    validatePosition_of_unchanged d p ⟨h0, h1, h2, h3⟩
  have hi : p.line.toNat < d.lines.length := by
    unfold Doc.lineCount at h1
    omega
  have hilens : p.line.toNat < (d.lines.map List.length).length := by
    simpa using hi
  have hgetD := map_length_getD d.lines p.line.toNat hi
  have he1 : 0 < d.eol.length := List.length_pos.mpr he
  have hlen : p.character.toNat ≤ (d.lines.getD p.line.toNat []).length := by
    unfold Doc.getLine at h3
    omega
  have hc : p.character.toNat <
      (d.lines.map List.length).getD p.line.toNat 0 + d.eol.length := by
    rw [hgetD]
    omega
  simp only [offsetAt, positionAt, hvp]
  have hoff : (max 0 ((lineStartSum (d.lines.map List.length) d.eol.length
      p.line.toNat : Int) + p.character)).toNat =
      lineStartSum (d.lines.map List.length) d.eol.length p.line.toNat +
        p.character.toNat := by omega
  rw [hoff, getIndexOf_locate (d.lines.map List.length) d.eol.length
    p.line.toNat p.character.toNat hilens hc]
  cases p with
  | mk a b =>
    dsimp only at *
    simp only [Position.mk.injEq]
    exact ⟨by omega, by omega⟩

/-- C2 witness: the round trip at position `(1, 2)` of the concrete
document. -/
theorem positionAt_offsetAt_witness :
    docA.eol ≠ [] ∧ PosUnchanged docA ⟨1, 2⟩ ∧
      positionAt docA (offsetAt docA ⟨1, 2⟩) = ⟨1, 2⟩ :=
  ⟨by simp [docA], by decide,
    positionAt_offsetAt docA ⟨1, 2⟩ (by simp [docA]) (by decide)⟩

/-! ## Claim C4: range text extraction -/

/-- With both indices already in `[0, length]`, `substring` is the
slice between the smaller and the larger index. -/
theorem jsSubstring_of_bounds (s : Line) (a b : Int)
    (ha0 : 0 ≤ a) (ha1 : a ≤ (s.length : Int))
    (hb0 : 0 ≤ b) (hb1 : b ≤ (s.length : Int)) :
    jsSubstring s a b =
      (s.drop (min a b).toNat).take ((max a b).toNat - (min a b).toNat) := by
  simp only [jsSubstring]
  have h1 : (min (max a 0) (s.length : Int)).toNat = a.toNat := by omega
  have h2 : (min (max b 0) (s.length : Int)).toNat = b.toNat := by omega
  rw [h1, h2]
  have h3 : min a.toNat b.toNat = (min a b).toNat := by omega
  have h4 : max a.toNat b.toNat = (max a b).toNat := by omega
  rw [h3, h4]

/-- `substring(a, length)` is the tail from `a`. -/
theorem jsSubstring_drop (s : Line) (a : Int)
    (ha0 : 0 ≤ a) (ha1 : a ≤ (s.length : Int)) :
    jsSubstring s a (s.length : Int) = s.drop a.toNat := by
  rw [jsSubstring_of_bounds s a _ ha0 ha1 (by omega) (by omega)]
  have hmin : (min a (s.length : Int)).toNat = a.toNat := by omega
  have hmax : (max a (s.length : Int)).toNat = s.length := by omega
  rw [hmin, hmax]
  apply List.take_of_length_le
  rw [List.length_drop]

/-- `substring(0, b)` is the prefix up to `b`. -/
theorem jsSubstring_take (s : Line) (b : Int)
    (hb0 : 0 ≤ b) (hb1 : b ≤ (s.length : Int)) :
    jsSubstring s 0 b = s.take b.toNat := by
  rw [jsSubstring_of_bounds s 0 b le_rfl (by omega) hb0 hb1]
  have hmin : (min (0 : Int) b).toNat = 0 := by omega
  have hmax : (max (0 : Int) b).toNat = b.toNat := by omega
  rw [hmin, hmax, List.drop_zero]
  simp

/-- Both endpoints of a validated range are valid positions. -/
theorem validateRange_unchanged_endpoints (d : Doc) (r : Range)
    (h : d.lines ≠ []) :
    PosUnchanged d (validateRange d r).start ∧
      PosUnchanged d (validateRange d r).stop := by
  rw [validateRange_start, validateRange_stop,
    validatePosition_eq_fst, validatePosition_eq_fst]
  exact ⟨validatePositionEx_fst_unchanged d r.start h,
    validatePositionEx_fst_unchanged d r.stop h⟩

/-- C4.  `getTextInRange` behaves exactly as the spec describes: it
validates the range, returns nothing for an empty range, the characters
between the two offsets for a single-line range, and otherwise the
start-line tail, the full lines strictly between, and the end-line
prefix joined with the document's single shared terminator. -/
theorem getTextInRange_spec_eq (d : Doc) (r : Range) (h : d.lines ≠ []) :
    getTextInRange d r = getTextInRangeSpec d r := by
  obtain ⟨⟨hs0, hs1, hs2, hs3⟩, ⟨he0, he1, he2, he3⟩⟩ :=
    validateRange_unchanged_endpoints d r h
  simp only [getTextInRange, getTextInRangeSpec]
  by_cases hempty : (validateRange d r).start = (validateRange d r).stop
  · simp [Range.isEmpty, hempty]
  · have hni : ¬((validateRange d r).isEmpty = true) := by
      simp [Range.isEmpty, hempty]
    by_cases hsingle :
        (validateRange d r).start.line = (validateRange d r).stop.line
    · have hsi : (validateRange d r).isSingleLine = true := by
        simp [Range.isSingleLine, hsingle]
      rw [if_neg hni, if_pos hsi, if_neg hempty, if_pos hsingle]
      rw [← hsingle] at he3
      rw [jsSubstring_of_bounds _ _ _ hs2 hs3 he2 he3]
    · have hsi : ¬((validateRange d r).isSingleLine = true) := by
        simp [Range.isSingleLine, hsingle]
      rw [if_neg hni, if_neg hsi, if_neg hempty, if_neg hsingle]
      rw [jsSubstring_drop _ _ hs2 hs3, jsSubstring_take _ _ he2 he3]

/-- C4 witness: the multi-line range `((0,2),(1,2))` on the concrete
document. -/
theorem getTextInRange_spec_eq_witness :
    docA.lines ≠ [] ∧
      getTextInRange docA ⟨⟨0, 2⟩, ⟨1, 2⟩⟩ =
        getTextInRangeSpec docA ⟨⟨0, 2⟩, ⟨1, 2⟩⟩ :=
  ⟨by simp [docA], getTextInRange_spec_eq docA ⟨⟨0, 2⟩, ⟨1, 2⟩⟩ (by simp [docA])⟩

end ExtHostDocumentData
